import Mathlib

/-!
# Verification of the BikeRideSimulator core (`cycling_sim`)

Shallow embedding of `src/cycling_sim/` (physiology.py, route.py, rider.py,
physics.py, race.py) over exact rational arithmetic, together with theorems
settling the frozen specification claims.  Python floats are modelled as `ℚ`;
Python `None` as `Option`; the in-place mutating race loop as explicit state
passing in rider-list order.
-/

namespace CyclingSim

/-! ## Physiology (src/cycling_sim/physiology.py) -/

/-- State of `Physiology` (dataclass fields, floats as `ℚ`). -/
structure Physiology where
  critical_power : ℚ
  w_prime : ℚ
  fatigue_kj : ℚ
  fatigue_penalty : ℚ
  sprint_power : ℚ
  w_balance : ℚ
  total_kj : ℚ
  deriving DecidableEq, Repr

/-- Constructing a `Physiology`: `__post_init__` sets `w_balance = w_prime`;
`total_kj` has dataclass default `0.0`. -/
def Physiology.make (critical_power w_prime : ℚ) (fatigue_kj : ℚ := 800)
    (fatigue_penalty : ℚ := 0.15) (sprint_power : ℚ := 1100) : Physiology :=
  { critical_power := critical_power
    w_prime := w_prime
    fatigue_kj := fatigue_kj
    fatigue_penalty := fatigue_penalty
    sprint_power := sprint_power
    w_balance := w_prime
    total_kj := 0 }

/-- Python `Physiology.fatigue_adjusted_cp`. -/
def Physiology.fatigue_adjusted_cp (p : Physiology) : ℚ :=
  let fatigue_ratio := min (p.total_kj / p.fatigue_kj) 1
  let cp_drop := p.fatigue_penalty * fatigue_ratio
  p.critical_power * max 0 (1 - cp_drop)

/-- Python `Physiology.update(power, dt)`: adds work to `total_kj`, then depletes or
recovers `w_balance` against the CP threshold computed from the pre-update
`total_kj`. -/
def Physiology.update (p : Physiology) (power dt : ℚ) : Physiology :=
  let cp := p.fatigue_adjusted_cp
  let work_j := power * dt
  let total_kj := p.total_kj + work_j / 1000
  if power > cp then
    let depletion := (power - cp) * dt
    { p with total_kj := total_kj, w_balance := max 0 (p.w_balance - depletion) }
  else
    let recovery_rate := (cp - power) * dt * 0.25
    { p with total_kj := total_kj,
             w_balance := min p.w_prime (p.w_balance + recovery_rate) }

/-- Python `Physiology.available_power`. -/
def Physiology.available_power (p : Physiology) : ℚ :=
  let cp := p.fatigue_adjusted_cp
  if p.w_balance < 0.2 * p.w_prime then cp * 1.05 else cp * 1.4

/-- Python `Physiology.is_cooked`. -/
def Physiology.is_cooked (p : Physiology) : Bool :=
  p.w_balance ≤ 1 ∧ p.fatigue_adjusted_cp < 0.8 * p.critical_power

/-- A sequence of `update(power, dt)` calls, front of the list first. -/
def Physiology.applyUpdates (p : Physiology) : List (ℚ × ℚ) → Physiology
  | [] => p
  | c :: cs => (p.update c.1 c.2).applyUpdates cs

/-! ## Route (src/cycling_sim/route.py) -/

/-- Python `RouteSegment` dataclass. -/
structure RouteSegment where
  length : ℚ
  gradient : ℚ
  deriving DecidableEq, Repr

/-- Python `Route`: a sequence of constant-gradient segments. -/
structure Route where
  segments : List RouteSegment
  deriving DecidableEq, Repr

/-- Python `Route.total_length` (computed in `__init__` as the sum of lengths). -/
def Route.total_length (r : Route) : ℚ :=
  (r.segments.map RouteSegment.length).sum

/-- The `for seg in self.segments` loop of `gradient_at`, carrying the running
cumulative start `pos`; `none` when the loop falls through. -/
def gradientAtLoop (position : ℚ) : List RouteSegment → ℚ → Option ℚ
  | [], _ => none
  | seg :: rest, pos =>
      if position ≤ pos + seg.length then some seg.gradient
      else gradientAtLoop position rest (pos + seg.length)

/-- Python `Route.gradient_at(position)`.  On an empty segment list the Python code
raises `IndexError` at `self.segments[-1]`; we return `0` there and only state
claims for non-empty routes. -/
def Route.gradient_at (r : Route) (position : ℚ) : ℚ :=
  match gradientAtLoop position r.segments 0 with
  | some g => g
  | none =>
      match r.segments.getLast? with
      | some seg => seg.gradient
      | none => 0

/-! ## Rider (src/cycling_sim/rider.py) -/

/-- Python `Rider` dataclass.  The unused free-form `strategy` dict is omitted:
no code under `src/` reads it. -/
structure Rider where
  name : String
  mass : ℚ
  cda : ℚ
  crr : ℚ
  physiology : Physiology
  position : ℚ
  velocity : ℚ
  finished : Bool
  finish_time : Option ℚ
  deriving DecidableEq, Repr

/-- The `state` dict passed by `Race.step` to `choose_power`; all five keys are
always present there, so we model it as a record (`gap` carries the dict's
default `0.0` for an unbounded gap, `at_front` the default `False`). -/
structure PowerContext where
  time : ℚ
  gap : ℚ
  at_front : Bool
  draft_factor : ℚ
  gradient : ℚ
  deriving DecidableEq, Repr

/-- Python `Rider.choose_power(state)`: first-match heuristic power policy. -/
def Rider.choose_power (r : Rider) (state : PowerContext) : ℚ :=
  let phys := r.physiology
  let cp := phys.fatigue_adjusted_cp
  let max_power := min phys.available_power phys.sprint_power
  let gap := state.gap
  let at_front := state.at_front
  if phys.w_balance < 0.2 * phys.w_prime then cp * 0.95
  else if gap > 5 ∧ at_front = false then min max_power (cp * 1.3)
  else if at_front = false ∧ gap < 2 then cp * 0.9
  else if at_front then min max_power (cp * 1.1)
  else cp

/-! ## Physics (src/cycling_sim/physics.py) -/

/-- Python `PhysicsConstants` dataclass with its defaults. -/
structure PhysicsConstants where
  air_density : ℚ := 1.226
  gravity : ℚ := 9.80665
  drivetrain_efficiency : ℚ := 0.975
  deriving DecidableEq, Repr

/-- Python `DEFAULT_CONSTANTS = PhysicsConstants()`. -/
def DEFAULT_CONSTANTS : PhysicsConstants := {}

/-- The dict returned by `compute_forces`. -/
structure Forces where
  aero : ℚ
  rolling : ℚ
  grade : ℚ
  total : ℚ
  deriving DecidableEq, Repr

/-- Python `compute_forces`. -/
def compute_forces (speed gradient mass cda crr : ℚ) (draft_factor : ℚ := 1)
    (constants : PhysicsConstants := DEFAULT_CONSTANTS) : Forces :=
  let aero_force := 0.5 * constants.air_density * cda * draft_factor * speed ^ 2
  let roll_force := mass * constants.gravity * crr
  let grade_force := mass * constants.gravity * gradient
  { aero := aero_force
    rolling := roll_force
    grade := grade_force
    total := aero_force + roll_force + grade_force }

/-- Python `compute_next_speed`: returns `(acceleration, next_speed)`.  `ℚ` division
by zero yields `0` where Python would raise `ZeroDivisionError` (`mass = 0`);
claims only use positive masses.  `effective_speed` is floored at `0.5`, so
the drive-force division itself never divides by zero. -/
def compute_next_speed (power speed gradient mass cda crr : ℚ)
    (draft_factor : ℚ := 1) (dt : ℚ := 0.2)
    (constants : PhysicsConstants := DEFAULT_CONSTANTS) : ℚ × ℚ :=
  let resistive := compute_forces speed gradient mass cda crr draft_factor constants
  let effective_speed := max speed 0.5
  let drive_force := power * constants.drivetrain_efficiency / effective_speed
  let net_force := drive_force - resistive.total
  let acceleration := net_force / mass
  let next_speed := speed + acceleration * dt
  (acceleration, max 0 next_speed)

/-! ## Race (src/cycling_sim/race.py) -/

/-- Python `compute_draft_factor(gap)`. -/
def compute_draft_factor (gap : ℚ) : ℚ :=
  if gap < 2 then 0.7 else if gap < 5 then 0.85 else 1

/-- Stable insertion sort, modelling Python's stable `list.sort(key=...)`:
`le a b` means "`a`'s key ≤ `b`'s key"; on ties the earlier element stays
first.  Python guarantees exactly this (Timsort is stable), so any stable
sort is a faithful embedding. -/
def insertSorted (le : α → α → Bool) (a : α) : List α → List α
  | [] => [a]
  | b :: bs => if le a b then a :: b :: bs else b :: insertSorted le a bs

/-- Stable sort (see `insertSorted`). -/
def stableSort (le : α → α → Bool) : List α → List α
  | [] => []
  | a :: as => insertSorted le a (stableSort le as)

/-- Key comparison for `sort(key=lambda r: r.position, reverse=True)`:
descending by position. -/
def byPositionDesc (a b : Rider) : Bool :=
  decide (b.position ≤ a.position)

/-- The body of `Race.step`'s per-rider loop for one non-finished rider:
draft/gap from `leader` (the list entry at `idx - 1`, i.e. the rider object
as it stands after its own earlier iteration of the same pass), then physics,
physiology, kinematics, overlap guard and finish check.
`leader = none` encodes Python's `None`; a `none` gap is Python's
`float("inf")`, for which `compute_draft_factor` returns `1.0` and the state
dict carries `gap = 0.0`. -/
def Race.stepOne (route : Route) (dt time : ℚ) (leader : Option Rider)
    (r : Rider) : Rider :=
  let gap? : Option ℚ := leader.map fun l => l.position - r.position
  let draft_factor := match gap? with
    | some g => compute_draft_factor g
    | none => 1
  let gradient := route.gradient_at r.position
  let power := r.choose_power
    { time := time
      gap := gap?.getD 0
      at_front := leader.isNone
      draft_factor := draft_factor
      gradient := gradient }
  let ns := compute_next_speed power r.velocity gradient r.mass r.cda r.crr
    draft_factor dt
  let next_speed := ns.2
  let r1 := { r with physiology := r.physiology.update power dt,
                     velocity := next_speed,
                     position := r.position + next_speed * dt }
  let r2 := match leader with
    | some l =>
        if r1.position > l.position - 0.3 then
          { r1 with position := l.position - 0.3,
                    velocity := min r1.velocity l.velocity }
        else r1
    | none => r1
  if r2.position ≥ route.total_length then
    { r2 with finished := true, finish_time := some time,
              position := route.total_length }
  else r2

/-- Variant of `Race.stepOne` with the leader used for the draft-factor and
power-policy gap (`gapLeader`) decoupled from the leader used by the overlap
guard (`guardLeader`); `Race.stepOne leader = Race.stepOneSplit leader leader`
by definition.  This is the vocabulary of the spec's "Important semantic
note", which distinguishes the two reads of the leader. -/
def Race.stepOneSplit (route : Route) (dt time : ℚ)
    (gapLeader guardLeader : Option Rider) (r : Rider) : Rider :=
  let gap? : Option ℚ := gapLeader.map fun l => l.position - r.position
  let draft_factor := match gap? with
    | some g => compute_draft_factor g
    | none => 1
  let gradient := route.gradient_at r.position
  let power := r.choose_power
    { time := time
      gap := gap?.getD 0
      at_front := gapLeader.isNone
      draft_factor := draft_factor
      gradient := gradient }
  let ns := compute_next_speed power r.velocity gradient r.mass r.cda r.crr
    draft_factor dt
  let next_speed := ns.2
  let r1 := { r with physiology := r.physiology.update power dt,
                     velocity := next_speed,
                     position := r.position + next_speed * dt }
  let r2 := match guardLeader with
    | some l =>
        if r1.position > l.position - 0.3 then
          { r1 with position := l.position - 0.3,
                    velocity := min r1.velocity l.velocity }
        else r1
    | none => r1
  if r2.position ≥ route.total_length then
    { r2 with finished := true, finish_time := some time,
              position := route.total_length }
  else r2

/-- Modelled from the spec: the per-rider pass exactly as the spec's
"Important semantic note" describes it — the draft/gap calculation "sees the
leader's *pre-step* position (leader hasn't moved yet within that pass)"
(tracked by `preLeader`, the rider at `idx - 1` as it stood when the pass
began), "but the overlap guard in 2h compares against the leader's
*already-updated* position from earlier in the same pass" (tracked by
`postLeader`). -/
def Race.stepLoopSpecNote (route : Route) (dt time : ℚ) :
    Option Rider → Option Rider → List Rider → List Rider
  | _, _, [] => []
  | preLeader, postLeader, r :: rest =>
      if r.finished then
        r :: Race.stepLoopSpecNote route dt time (some r) (some r) rest
      else
        let r1 := Race.stepOneSplit route dt time preLeader postLeader r
        r1 :: Race.stepLoopSpecNote route dt time (some r) (some r1) rest

/-- Modelled from the spec's semantic note with "pre-step" corrected to
"already-updated": both the draft/gap calculation and the overlap guard read
the leader at `idx - 1` as already updated earlier in the same pass. -/
def Race.stepLoopBothUpdated (route : Route) (dt time : ℚ) :
    Option Rider → List Rider → List Rider
  | _, [] => []
  | postLeader, r :: rest =>
      if r.finished then
        r :: Race.stepLoopBothUpdated route dt time (some r) rest
      else
        let r1 := Race.stepOneSplit route dt time postLeader postLeader r
        r1 :: Race.stepLoopBothUpdated route dt time (some r1) rest

/-- The `for idx, rider in enumerate(self.riders)` loop: riders are processed
front to back; `leader` is the already-processed rider at `idx - 1` (finished
riders are skipped but still serve as leaders). -/
def Race.stepLoop (route : Route) (dt time : ℚ) :
    Option Rider → List Rider → List Rider
  | _, [] => []
  | leader, r :: rest =>
      if r.finished then r :: Race.stepLoop route dt time (some r) rest
      else
        let r1 := Race.stepOne route dt time leader r
        r1 :: Race.stepLoop route dt time (some r1) rest

/-- Race session state: the rider list and the current simulated time. -/
structure RaceState where
  riders : List Rider
  time : ℚ
  deriving DecidableEq, Repr

/-- Python `Race.step`: sort by position descending (stable), run the per-rider
pass, advance time by `dt`. -/
def Race.step (route : Route) (dt : ℚ) (s : RaceState) : RaceState :=
  let sorted := stableSort byPositionDesc s.riders
  { riders := Race.stepLoop route dt s.time none sorted
    time := s.time + dt }

/-- The spec-note reading of the whole step (sort, pass, advance time),
built on `Race.stepLoopSpecNote`. -/
def Race.stepSpecNote (route : Route) (dt : ℚ) (s : RaceState) : RaceState :=
  let sorted := stableSort byPositionDesc s.riders
  { riders := Race.stepLoopSpecNote route dt s.time none none sorted
    time := s.time + dt }

/-- The `for _ in range(max_steps)` loop of `Race.run`: break as soon as any
rider is finished, otherwise step. -/
def Race.runLoop (route : Route) (dt : ℚ) : ℕ → RaceState → RaceState
  | 0, s => s
  | n + 1, s =>
      if s.riders.any (·.finished) then s
      else Race.runLoop route dt n (Race.step route dt s)

/-- Python's `x or d` for `x : float | None`: both `None` and `0.0` are falsy
and give `d`. -/
def pyOr (t : Option ℚ) (d : ℚ) : ℚ :=
  match t with
  | none => d
  | some v => if v = 0 then d else v

/-- The secondary sort key `r.finish_time or float("inf")` of `Race.run`,
with `none` standing for `+inf`: `None` and a stored `0.0` both map to
`+inf`. -/
def finishSortKey (r : Rider) : Option ℚ :=
  match r.finish_time with
  | none => none
  | some v => if v = 0 then none else some v

/-- Order on the secondary key, `none` being `+inf`. -/
def keyTimeLE : Option ℚ → Option ℚ → Bool
  | _, none => true
  | none, some _ => false
  | some a, some b => decide (a ≤ b)

/-- Key comparison for `sort(key=lambda r: (-r.position, r.finish_time or
float("inf")))`: lexicographic on `(-position, finish key)`. -/
def finalOrderLE (a b : Rider) : Bool :=
  if a.position = b.position then keyTimeLE (finishSortKey a) (finishSortKey b)
  else decide (b.position < a.position)

/-- Python `RaceResult`; the `finish_times` dict becomes an association list in the
dict's insertion order (= final sorted order). -/
structure RaceResult where
  order : List String
  finish_times : List (String × ℚ)
  deriving DecidableEq, Repr

/-- The DNF branch of `Race.run`: if nobody finished, mark every rider
finished with `finish_time = max_time`. -/
def Race.markDNF (max_time : ℚ) (rs : List Rider) : List Rider :=
  if rs.any (·.finished) then rs
  else rs.map fun r => { r with finished := true, finish_time := some max_time }

/-- Python `Race.run` up to the final sort: the riders as `self.riders` stands when
`run` returns.  `int(max_time / dt)` truncates toward zero; for the
non-negative arguments used here that is the floor (`ℚ` division by `dt = 0`
yields `0` where Python raises). -/
def Race.runState (route : Route) (dt max_time : ℚ) (riders : List Rider) :
    List Rider :=
  let max_steps : ℕ := (⌊max_time / dt⌋).toNat
  let final := Race.runLoop route dt max_steps { riders := riders, time := 0 }
  let rs := Race.markDNF max_time final.riders
  stableSort finalOrderLE rs

/-- Python `Race.run(max_time)`: returns order and name → finish-time mapping
(`r.finish_time or max_time`). -/
def Race.run (route : Route) (dt max_time : ℚ) (riders : List Rider) :
    RaceResult :=
  let rs := Race.runState route dt max_time riders
  { order := rs.map Rider.name
    finish_times := rs.map fun r => (r.name, pyOr r.finish_time max_time) }

/-! ## Concrete fixtures for counterexamples and witnesses -/

/-- Cumulative end of segment `i`: the sum of the first `i + 1` segment
lengths (the spec's "cumulative end"). -/
def segmentEnd (segs : List RouteSegment) (i : ℕ) : ℚ :=
  ((segs.take (i + 1)).map RouteSegment.length).sum

/-- A representative physiology (traits inside the spec's sampling ranges). -/
def physFix : Physiology := Physiology.make 300 20000

/-- A representative rider at the start line. -/
def twinA : Rider :=
  { name := "A", mass := 75, cda := 0.3, crr := 0.004, physiology := physFix,
    position := 0, velocity := 0, finished := false, finish_time := none }

/-- An identical rider differing only in name. -/
def twinB : Rider := { twinA with name := "B" }

/-- A long flat route. -/
def routeFlat : Route := { segments := [{ length := 10000, gradient := 0 }] }

/-- A route short enough to be finished within the first step. -/
def routeShort : Route := { segments := [{ length := 0.1, gradient := 0 }] }

/-- A two-segment route (climb then descent) for gradient lookups. -/
def routeHilly : Route :=
  { segments := [{ length := 100, gradient := 0.05 },
                 { length := 50, gradient := -0.01 }] }

/-- A moving leader 4.5 m ahead of `follC1`. -/
def leadC1 : Rider := { twinA with name := "L", position := 4.5, velocity := 5 }

/-- A stationary follower at the start line. -/
def follC1 : Rider := { twinA with name := "F" }

/-! ## Physiology lemmas -/

lemma update_w_prime (p : Physiology) (power dt : ℚ) :
    (p.update power dt).w_prime = p.w_prime := by
  simp only [Physiology.update]
  split <;> rfl

lemma update_total_kj (p : Physiology) (power dt : ℚ) :
    (p.update power dt).total_kj = p.total_kj + power * dt / 1000 := by
  simp only [Physiology.update]
  split <;> rfl

lemma update_w_balance_bounds (p : Physiology) (power dt : ℚ) (hdt : 0 ≤ dt)
    (h0 : 0 ≤ p.w_balance) (h1 : p.w_balance ≤ p.w_prime) :
    0 ≤ (p.update power dt).w_balance ∧
      (p.update power dt).w_balance ≤ p.w_prime := by
  have hwp : 0 ≤ p.w_prime := h0.trans h1
  simp only [Physiology.update]
  split
  case isTrue h =>
    refine ⟨le_max_left 0 _, max_le hwp ?_⟩
    have hdep : 0 ≤ (power - p.fatigue_adjusted_cp) * dt :=
      mul_nonneg (by linarith) hdt
    linarith
  case isFalse h =>
    refine ⟨le_min hwp ?_, min_le_left _ _⟩
    have hrec : 0 ≤ (p.fatigue_adjusted_cp - power) * dt * 0.25 := by
      have : 0 ≤ (p.fatigue_adjusted_cp - power) * dt :=
        mul_nonneg (by push_neg at h; linarith) hdt
      linarith
    linarith

lemma applyUpdates_w_prime (p : Physiology) (calls : List (ℚ × ℚ)) :
    (p.applyUpdates calls).w_prime = p.w_prime := by
  induction calls generalizing p with
  | nil => rfl
  | cons c cs ih =>
      simp only [Physiology.applyUpdates]
      rw [ih, update_w_prime]

lemma applyUpdates_w_balance_bounds (p : Physiology) (calls : List (ℚ × ℚ))
    (hdt : ∀ c ∈ calls, 0 ≤ c.2) (h0 : 0 ≤ p.w_balance)
    (h1 : p.w_balance ≤ p.w_prime) :
    0 ≤ (p.applyUpdates calls).w_balance ∧
      (p.applyUpdates calls).w_balance ≤ p.w_prime := by
  induction calls generalizing p with
  | nil => exact ⟨h0, h1⟩
  | cons c cs ih =>
      simp only [Physiology.applyUpdates]
      have hstep := update_w_balance_bounds p c.1 c.2
        (hdt c (List.mem_cons_self c cs)) h0 h1
      have := ih (p.update c.1 c.2)
        (fun d hd => hdt d (List.mem_cons_of_mem c hd))
        hstep.1 (by rw [update_w_prime]; exact hstep.2)
      rw [update_w_prime] at this
      exact this

lemma update_total_le (p : Physiology) (power dt : ℚ) (hp : 0 ≤ power)
    (hdt : 0 ≤ dt) : p.total_kj ≤ (p.update power dt).total_kj := by
  rw [update_total_kj]
  have : 0 ≤ power * dt := mul_nonneg hp hdt
  linarith

lemma applyUpdates_total_le (p : Physiology) (calls : List (ℚ × ℚ))
    (h : ∀ c ∈ calls, 0 ≤ c.1 ∧ 0 ≤ c.2) :
    p.total_kj ≤ (p.applyUpdates calls).total_kj := by
  induction calls generalizing p with
  | nil => exact le_refl _
  | cons c cs ih =>
      simp only [Physiology.applyUpdates]
      have hc := h c (List.mem_cons_self c cs)
      exact (update_total_le p c.1 c.2 hc.1 hc.2).trans
        (ih (p.update c.1 c.2) (fun d hd => h d (List.mem_cons_of_mem c hd)))

lemma applyUpdates_append (p : Physiology) (l1 l2 : List (ℚ × ℚ)) :
    p.applyUpdates (l1 ++ l2) = (p.applyUpdates l1).applyUpdates l2 := by
  induction l1 generalizing p with
  | nil => rfl
  | cons c cs ih =>
      simp only [List.cons_append, Physiology.applyUpdates]
      exact ih (p.update c.1 c.2)

/-! ## Claim theorems: physiology -/

/-- C2: for every `Physiology` initialized with `w_balance = w_prime ≥ 0` and
every finite sequence of `update(power, dt)` calls with `dt ≥ 0`, after every
call (i.e. after every prefix `pre` of the sequence `pre ++ suf`) `w_balance`
stays within `[0, w_prime]`; and `total_kj` never decreases across the
sequence when every power is non-negative. -/
theorem claim_C2 (cp wp fkj fp sp : ℚ) (hwp : 0 ≤ wp)
    (pre suf : List (ℚ × ℚ)) (hdt : ∀ c ∈ pre ++ suf, 0 ≤ c.2) :
    (0 ≤ ((Physiology.make cp wp fkj fp sp).applyUpdates pre).w_balance ∧
      ((Physiology.make cp wp fkj fp sp).applyUpdates pre).w_balance ≤ wp) ∧
    ((∀ c ∈ pre ++ suf, 0 ≤ c.1) →
      ((Physiology.make cp wp fkj fp sp).applyUpdates pre).total_kj ≤
        ((Physiology.make cp wp fkj fp sp).applyUpdates (pre ++ suf)).total_kj) := by
  constructor
  · have := applyUpdates_w_balance_bounds (Physiology.make cp wp fkj fp sp) pre
      (fun c hc => hdt c (List.mem_append_left suf hc)) hwp (le_refl wp)
    exact this
  · intro hpow
    rw [applyUpdates_append]
    exact applyUpdates_total_le _ suf
      (fun c hc => ⟨hpow c (List.mem_append_right pre hc),
        hdt c (List.mem_append_right pre hc)⟩)

/-- Witness for C2 at a concrete physiology and call sequence. -/
theorem claim_C2_witness :
    ((0 : ℚ) ≤ 20000 ∧ (∀ c ∈ [((400 : ℚ), (10 : ℚ))] ++ [((100 : ℚ), (10 : ℚ))], 0 ≤ c.2)) ∧
    ((0 ≤ ((Physiology.make 300 20000 800 0.15 1100).applyUpdates
          [((400 : ℚ), (10 : ℚ))]).w_balance ∧
      ((Physiology.make 300 20000 800 0.15 1100).applyUpdates
          [((400 : ℚ), (10 : ℚ))]).w_balance ≤ 20000) ∧
     ((∀ c ∈ [((400 : ℚ), (10 : ℚ))] ++ [((100 : ℚ), (10 : ℚ))], 0 ≤ c.1) →
      ((Physiology.make 300 20000 800 0.15 1100).applyUpdates
          [((400 : ℚ), (10 : ℚ))]).total_kj ≤
        ((Physiology.make 300 20000 800 0.15 1100).applyUpdates
          ([((400 : ℚ), (10 : ℚ))] ++ [((100 : ℚ), (10 : ℚ))])).total_kj)) :=
  ⟨⟨by decide, by decide⟩,
    claim_C2 300 20000 800 0.15 1100 (by decide)
      [((400 : ℚ), (10 : ℚ))] [((100 : ℚ), (10 : ℚ))] (by decide)⟩

/-- C3: `update(power, dt)` computes the fatigue-adjusted critical power from
the pre-update `total_kj` (`fatigue_ratio = min(total_kj/fatigue_kj, 1)`,
`adjusted_cp = critical_power * max(0, 1 - fatigue_penalty*fatigue_ratio)`),
adds `power*dt/1000` to `total_kj`, and depletes/recovers `w_balance` against
that pre-update threshold with the stated clamps. -/
theorem claim_C3 (p : Physiology) (power dt : ℚ) :
    p.fatigue_adjusted_cp =
      p.critical_power *
        max 0 (1 - p.fatigue_penalty * min (p.total_kj / p.fatigue_kj) 1) ∧
    (p.update power dt).total_kj = p.total_kj + power * dt / 1000 ∧
    (p.update power dt).w_balance =
      (if p.fatigue_adjusted_cp < power then
        max 0 (p.w_balance - (power - p.fatigue_adjusted_cp) * dt)
      else
        min p.w_prime (p.w_balance + (p.fatigue_adjusted_cp - power) * dt * 0.25)) := by
  refine ⟨rfl, update_total_kj p power dt, ?_⟩
  simp only [Physiology.update]
  split <;> rfl

/-- C9 fails as stated: a `Physiology` with `critical_power ≥ 0` and
`fatigue_penalty ≤ 0.2` (here a negative penalty), reached from construction
by one `update` call, has `is_cooked() = True`. -/
theorem claim_C9_counterexample :
    (0 : ℚ) ≤ ((Physiology.make 100 0 800 (-1) 1100).applyUpdates
        [((-900000 : ℚ), (1 : ℚ))]).critical_power ∧
    ((Physiology.make 100 0 800 (-1) 1100).applyUpdates
        [((-900000 : ℚ), (1 : ℚ))]).fatigue_penalty ≤ 0.2 ∧
    ((Physiology.make 100 0 800 (-1) 1100).applyUpdates
        [((-900000 : ℚ), (1 : ℚ))]).is_cooked = true := by
  norm_num [Physiology.make, Physiology.applyUpdates, Physiology.update,
    Physiology.fatigue_adjusted_cp, Physiology.is_cooked]

/-- C9 amended: for every `Physiology` with `critical_power ≥ 0` and
`0 ≤ fatigue_penalty ≤ 0.2` (including the default `0.15`), `is_cooked()`
returns `False` in every state, because `fatigue_adjusted_cp() ≥
0.8*critical_power` always holds. -/
theorem claim_C9 (p : Physiology) (hcp : 0 ≤ p.critical_power)
    (hfp0 : 0 ≤ p.fatigue_penalty) (hfp : p.fatigue_penalty ≤ 0.2) :
    p.is_cooked = false := by
  have hratio : min (p.total_kj / p.fatigue_kj) 1 ≤ 1 := min_le_right _ _
  have hdrop : p.fatigue_penalty * min (p.total_kj / p.fatigue_kj) 1 ≤ 0.2 := by
    have h1 : p.fatigue_penalty * min (p.total_kj / p.fatigue_kj) 1 ≤
        p.fatigue_penalty * 1 := mul_le_mul_of_nonneg_left hratio hfp0
    linarith
  have hmax : (0.8 : ℚ) ≤
      max 0 (1 - p.fatigue_penalty * min (p.total_kj / p.fatigue_kj) 1) :=
    le_max_of_le_right (by linarith)
  have hcpge : 0.8 * p.critical_power ≤ p.fatigue_adjusted_cp := by
    have h2 : p.critical_power * (0.8 : ℚ) ≤ p.critical_power *
        max 0 (1 - p.fatigue_penalty * min (p.total_kj / p.fatigue_kj) 1) :=
      mul_le_mul_of_nonneg_left hmax hcp
    simp only [Physiology.fatigue_adjusted_cp]
    linarith
  apply decide_eq_false
  rintro ⟨-, hlt⟩
  exact absurd hlt (not_lt.mpr hcpge)

/-- Witness for amended C9 at the default tunables. -/
theorem claim_C9_witness :
    ((0 : ℚ) ≤ (Physiology.make 300 20000 800 0.15 1100).critical_power ∧
     (0 : ℚ) ≤ (Physiology.make 300 20000 800 0.15 1100).fatigue_penalty ∧
     (Physiology.make 300 20000 800 0.15 1100).fatigue_penalty ≤ 0.2) ∧
    (Physiology.make 300 20000 800 0.15 1100).is_cooked = false :=
  ⟨⟨by norm_num [Physiology.make], by norm_num [Physiology.make],
      by norm_num [Physiology.make]⟩,
    claim_C9 (Physiology.make 300 20000 800 0.15 1100)
      (by norm_num [Physiology.make]) (by norm_num [Physiology.make])
      (by norm_num [Physiology.make])⟩

/-! ## Claim theorems: rider policy -/

/-- C6: `choose_power` is a deterministic function applying rules in
first-match order: (1) near-depleted rides at `0.95*adjusted_cp`; (2) off the
back chases at `min(min(available_power, sprint_power), 1.3*adjusted_cp)`;
(3) close draft eases to `0.9*adjusted_cp`; (4) at front pushes
`min(min(available_power, sprint_power), 1.1*adjusted_cp)`; (5) otherwise
exactly `adjusted_cp`. -/
theorem claim_C6 (r : Rider) (state : PowerContext) :
    r.choose_power state =
      if r.physiology.w_balance < 0.2 * r.physiology.w_prime then
        0.95 * r.physiology.fatigue_adjusted_cp
      else if state.gap > 5 ∧ state.at_front = false then
        min (min r.physiology.available_power r.physiology.sprint_power)
          (1.3 * r.physiology.fatigue_adjusted_cp)
      else if state.at_front = false ∧ state.gap < 2 then
        0.9 * r.physiology.fatigue_adjusted_cp
      else if state.at_front = true then
        min (min r.physiology.available_power r.physiology.sprint_power)
          (1.1 * r.physiology.fatigue_adjusted_cp)
      else r.physiology.fatigue_adjusted_cp := by
  simp only [Rider.choose_power]
  split_ifs <;> ring_nf

/-! ## Route lemmas -/

lemma segmentEnd_cons_zero (s : RouteSegment) (rest : List RouteSegment) :
    segmentEnd (s :: rest) 0 = s.length := by
  simp [segmentEnd]

lemma segmentEnd_cons_succ (s : RouteSegment) (rest : List RouteSegment)
    (j : ℕ) : segmentEnd (s :: rest) (j + 1) = s.length + segmentEnd rest j := by
  simp [segmentEnd]

lemma gradientAtLoop_eq_of_first (p : ℚ) (segs : List RouteSegment) :
    ∀ (pos : ℚ) (i : ℕ) (hi : i < segs.length),
      (∀ j, j < i → pos + segmentEnd segs j < p) →
      p ≤ pos + segmentEnd segs i →
      gradientAtLoop p segs pos = some ((segs.get ⟨i, hi⟩).gradient) := by
  induction segs with
  | nil =>
      intro pos i hi
      exact absurd hi (by simp)
  | cons s rest ih =>
      intro pos i hi hprev hle
      cases i with
      | zero =>
          rw [segmentEnd_cons_zero] at hle
          simp only [gradientAtLoop]
          rw [if_pos hle]
          rfl
      | succ j =>
          have h0 : pos + s.length < p := by
            have := hprev 0 (Nat.succ_pos j)
            rwa [segmentEnd_cons_zero] at this
          have hj : j < rest.length := Nat.succ_lt_succ_iff.mp hi
          simp only [gradientAtLoop]
          rw [if_neg (by linarith)]
          have hprev2 : ∀ k, k < j → pos + s.length + segmentEnd rest k < p := by
            intro k hk
            have := hprev (k + 1) (Nat.succ_lt_succ hk)
            rw [segmentEnd_cons_succ] at this
            linarith
          have hle2 : p ≤ pos + s.length + segmentEnd rest j := by
            rw [segmentEnd_cons_succ] at hle
            linarith
          exact ih (pos + s.length) j hj hprev2 hle2

lemma gradientAtLoop_of_total_le (p : ℚ) (segs : List RouteSegment) :
    ∀ (pos : ℚ),
      (∀ seg ∈ segs, 0 < seg.length) →
      pos + (segs.map RouteSegment.length).sum ≤ p →
      gradientAtLoop p segs pos = none ∨
        ∃ s, segs.getLast? = some s ∧
          gradientAtLoop p segs pos = some s.gradient := by
  induction segs with
  | nil => intro pos _ _; exact Or.inl rfl
  | cons s rest ih =>
      intro pos hpos hle
      cases rest with
      | nil =>
          by_cases hc : p ≤ pos + s.length
          · exact Or.inr ⟨s, rfl, by simp [gradientAtLoop, hc]⟩
          · refine Or.inl ?_
            simp [gradientAtLoop, hc]
      | cons s2 rest2 =>
          have hsum : 0 < ((s2 :: rest2).map RouteSegment.length).sum := by
            apply List.sum_pos
            · intro x hx
              obtain ⟨seg, hseg, rfl⟩ := List.mem_map.mp hx
              exact hpos seg (List.mem_cons_of_mem s hseg)
            · simp
          have hle2 : pos + s.length +
              ((s2 :: rest2).map RouteSegment.length).sum ≤ p := by
            simp only [List.map_cons, List.sum_cons] at hle ⊢
            linarith
          have hnc : ¬ p ≤ pos + s.length := by linarith
          simp only [gradientAtLoop]
          rw [if_neg hnc]
          rcases ih (pos + s.length)
              (fun seg hseg => hpos seg (List.mem_cons_of_mem s hseg)) hle2 with
            h | ⟨t, ht, heq⟩
          · exact Or.inl h
          · exact Or.inr ⟨t, by rwa [List.getLast?_cons_cons], heq⟩

/-! ## Claim theorems: route -/

/-- C7: for a route with a non-empty segment list of positive lengths,
`gradient_at(p)` returns the first segment's gradient for `p ≤ 0`, the last
segment's gradient for `p ≥ total_length`, and in general the gradient of the
first segment whose cumulative end is `≥ p`. -/
theorem claim_C7 (r : Route) (hne : r.segments ≠ [])
    (hpos : ∀ seg ∈ r.segments, 0 < seg.length) (p : ℚ) :
    (p ≤ 0 → some (r.gradient_at p) =
      r.segments.head?.map RouteSegment.gradient) ∧
    (r.total_length ≤ p → some (r.gradient_at p) =
      r.segments.getLast?.map RouteSegment.gradient) ∧
    (∀ i (hi : i < r.segments.length),
      (∀ j, j < i → segmentEnd r.segments j < p) →
      p ≤ segmentEnd r.segments i →
      r.gradient_at p = (r.segments.get ⟨i, hi⟩).gradient) := by
  refine ⟨?_, ?_, ?_⟩
  · intro hp
    cases hseg : r.segments with
    | nil => exact absurd hseg hne
    | cons s rest =>
        have hs : 0 < s.length := by
          apply hpos
          rw [hseg]
          exact List.mem_cons_self s rest
        have hloop : gradientAtLoop p (s :: rest) 0 = some s.gradient := by
          simp only [gradientAtLoop]
          rw [if_pos (by linarith)]
        simp [Route.gradient_at, hseg, hloop]
  · intro hp
    have htot : (0 : ℚ) + (r.segments.map RouteSegment.length).sum ≤ p := by
      rw [zero_add]
      exact hp
    rcases gradientAtLoop_of_total_le p r.segments 0 hpos htot with
      h | ⟨t, ht, heq⟩
    · obtain ⟨t, ht⟩ : ∃ t, r.segments.getLast? = some t := by
        cases hl : r.segments.getLast? with
        | none => exact absurd (List.getLast?_eq_none_iff.mp hl) hne
        | some t => exact ⟨t, rfl⟩
      simp [Route.gradient_at, h, ht]
    · simp [Route.gradient_at, heq, ht]
  · intro i hi hprev hle
    have hloop := gradientAtLoop_eq_of_first p r.segments 0 i hi
      (fun j hj => by rw [zero_add]; exact hprev j hj)
      (by rw [zero_add]; exact hle)
    simp [Route.gradient_at, hloop]

/-- Witness for C7 on a concrete two-segment route, at a position inside the
second segment. -/
theorem claim_C7_witness :
    (routeHilly.segments ≠ [] ∧
      (∀ seg ∈ routeHilly.segments, 0 < seg.length)) ∧
    ((120 : ℚ) ≤ 0 → some (routeHilly.gradient_at 120) =
      routeHilly.segments.head?.map RouteSegment.gradient) ∧
    (routeHilly.total_length ≤ 120 → some (routeHilly.gradient_at 120) =
      routeHilly.segments.getLast?.map RouteSegment.gradient) ∧
    (∀ i (hi : i < routeHilly.segments.length),
      (∀ j, j < i → segmentEnd routeHilly.segments j < 120) →
      (120 : ℚ) ≤ segmentEnd routeHilly.segments i →
      routeHilly.gradient_at 120 = (routeHilly.segments.get ⟨i, hi⟩).gradient) :=
  ⟨⟨List.cons_ne_nil _ _, by norm_num [routeHilly]⟩,
    claim_C7 routeHilly (List.cons_ne_nil _ _) (by norm_num [routeHilly]) 120⟩

/-! ## Stable-sort lemmas -/

lemma insertSorted_length (le : α → α → Bool) (a : α) (l : List α) :
    (insertSorted le a l).length = l.length + 1 := by
  induction l with
  | nil => rfl
  | cons b bs ih =>
      simp only [insertSorted]
      split <;> simp [ih]

lemma stableSort_length (le : α → α → Bool) (l : List α) :
    (stableSort le l).length = l.length := by
  induction l with
  | nil => rfl
  | cons a as ih => simp [stableSort, insertSorted_length, ih]

lemma mem_insertSorted (le : α → α → Bool) (a c : α) (l : List α) :
    c ∈ insertSorted le a l ↔ c = a ∨ c ∈ l := by
  induction l with
  | nil => simp [insertSorted]
  | cons b bs ih =>
      simp only [insertSorted]
      split
      · simp [List.mem_cons]
      · simp only [List.mem_cons, ih]
        tauto

lemma mem_stableSort (le : α → α → Bool) (c : α) (l : List α) :
    c ∈ stableSort le l ↔ c ∈ l := by
  induction l with
  | nil => simp [stableSort]
  | cons a as ih =>
      simp [stableSort, mem_insertSorted, ih, List.mem_cons]

lemma insertSorted_congr (le₁ le₂ : α → α → Bool) (a : α) (l : List α)
    (h : ∀ b ∈ l, le₁ a b = le₂ a b) :
    insertSorted le₁ a l = insertSorted le₂ a l := by
  induction l with
  | nil => rfl
  | cons b bs ih =>
      simp only [insertSorted]
      rw [h b (List.mem_cons_self b bs)]
      split
      · rfl
      · rw [ih (fun c hc => h c (List.mem_cons_of_mem b hc))]

lemma stableSort_congr (le₁ le₂ : α → α → Bool) (l : List α)
    (h : ∀ a ∈ l, ∀ b ∈ l, le₁ a b = le₂ a b) :
    stableSort le₁ l = stableSort le₂ l := by
  induction l with
  | nil => rfl
  | cons a as ih =>
      simp only [stableSort]
      rw [ih (fun x hx y hy =>
        h x (List.mem_cons_of_mem a hx) y (List.mem_cons_of_mem a hy))]
      exact insertSorted_congr le₁ le₂ a _ (fun b hb =>
        h a (List.mem_cons_self a as) b
          (List.mem_cons_of_mem a ((mem_stableSort le₂ b as).mp hb)))

/-! ## Race-step lemmas -/

lemma stepOne_eq_split (route : Route) (dt time : ℚ) (l : Option Rider)
    (r : Rider) :
    Race.stepOne route dt time l r = Race.stepOneSplit route dt time l l r :=
  rfl

lemma stepLoop_cons (route : Route) (dt time : ℚ) (l : Option Rider)
    (r : Rider) (rest : List Rider) :
    Race.stepLoop route dt time l (r :: rest) =
      (if r.finished then r else Race.stepOne route dt time l r) ::
        Race.stepLoop route dt time
          (some (if r.finished then r else Race.stepOne route dt time l r))
          rest := by
  by_cases h : r.finished <;> simp [Race.stepLoop, h]

lemma stepLoop_eq_bothUpdated (route : Route) (dt time : ℚ) (rs : List Rider) :
    ∀ l : Option Rider,
      Race.stepLoop route dt time l rs =
        Race.stepLoopBothUpdated route dt time l rs := by
  induction rs with
  | nil => intro l; rfl
  | cons r rest ih =>
      intro l
      by_cases h : r.finished
      · simp [Race.stepLoop, Race.stepLoopBothUpdated, h, ih]
      · simp [Race.stepLoop, Race.stepLoopBothUpdated, h, ih,
          stepOne_eq_split]

lemma stepOne_pos_le_leader (route : Route) (dt time : ℚ) (l r : Rider) :
    (Race.stepOne route dt time (some l) r).position ≤ l.position - 0.3 := by
  simp only [Race.stepOne, Option.map, Option.isNone]
  split_ifs with h1 h2 h3 <;> dsimp only at * <;> linarith

lemma stepLoop_getD_gap (route : Route) (dt time : ℚ) (d : Rider)
    (rs : List Rider) :
    ∀ (l : Option Rider) (i : ℕ),
      i + 1 < rs.length →
      (rs.getD (i + 1) d).finished = false →
      ((Race.stepLoop route dt time l rs).getD (i + 1) d).position ≤
        ((Race.stepLoop route dt time l rs).getD i d).position - 0.3 := by
  induction rs with
  | nil =>
      intro l i hi
      simp at hi
  | cons r rest ih =>
      intro l i hi hfin
      rw [stepLoop_cons]
      cases i with
      | zero =>
          simp only [List.getD_cons_succ, List.getD_cons_zero]
          cases rest with
          | nil => simp at hi
          | cons r2 rest2 =>
              have hf2 : r2.finished = false := by simpa using hfin
              rw [stepLoop_cons]
              simp only [List.getD_cons_zero, hf2, Bool.false_eq_true,
                if_false]
              exact stepOne_pos_le_leader route dt time _ r2
      | succ j =>
          simp only [List.getD_cons_succ]
          exact ih _ j (by simpa using hi) (by simpa using hfin)

/-! ## Claim theorems: race step ordering and overlap guard -/

/-- C1 fails as stated: on a concrete two-rider race the code's `Race.step`
(where the follower's draft/gap sees the leader's already-updated position:
post-step gap `> 5 m`, so the follower chases and is then clamped `0.3 m`
behind) differs from `Race.stepSpecNote`, the semantics the spec's
"Important semantic note" describes (pre-step gap `4.5 m`, follower rides at
`adjusted_cp`). -/
theorem claim_C1_counterexample :
    (Race.step routeFlat 1 { riders := [leadC1, follC1], time := 0 }).riders.map
        Rider.position = [51287367/5000000, 49787367/5000000] ∧
    (Race.stepSpecNote routeFlat 1
        { riders := [leadC1, follC1], time := 0 }).riders.map
        Rider.position = [51287367/5000000, 38803867/5000000] ∧
    ((49787367 : ℚ)/5000000 ≠ 38803867/5000000) := by
  refine ⟨?_, ?_, by norm_num⟩ <;>
    norm_num [Race.step, Race.stepSpecNote, Race.stepLoop,
      Race.stepLoopSpecNote, Race.stepOne, Race.stepOneSplit, stableSort,
      insertSorted, byPositionDesc, Rider.choose_power,
      Physiology.fatigue_adjusted_cp, Physiology.available_power,
      Physiology.update, compute_next_speed, compute_forces,
      compute_draft_factor, Route.gradient_at, gradientAtLoop,
      Route.total_length, DEFAULT_CONSTANTS, leadC1, follC1, twinA,
      routeFlat, physFix, Physiology.make]

/-- C1 amended: in `Race.step`, for every non-finished rider with a leader,
*both* the gap used for the draft-factor and power-policy computation *and*
the overlap guard read the leader's already-updated state from earlier in the
same pass: the step equals the spec-note semantics with "pre-step" corrected
to "already-updated" (`Race.stepLoopBothUpdated`). -/
theorem claim_C1_amended (route : Route) (dt : ℚ) (s : RaceState) :
    Race.step route dt s =
      { riders := Race.stepLoopBothUpdated route dt s.time none
          (stableSort byPositionDesc s.riders),
        time := s.time + dt } := by
  simp only [Race.step]
  rw [stepLoop_eq_bothUpdated]

/-- C4: after any execution of `Race.step`, any rider that had a leader (a
non-finished rider at index `i + 1 ≥ 1` of the step's front-to-back
ordering) ends at least `0.3 m` behind that leader — exactly, since the
embedding is exact rational arithmetic (ε = 0). -/
theorem claim_C4 (route : Route) (dt : ℚ) (s : RaceState) (d : Rider) (i : ℕ)
    (hi : i + 1 < s.riders.length)
    (hfin : ((stableSort byPositionDesc s.riders).getD (i + 1) d).finished
      = false) :
    0.3 ≤ ((Race.step route dt s).riders.getD i d).position -
      ((Race.step route dt s).riders.getD (i + 1) d).position := by
  have hlen : (stableSort byPositionDesc s.riders).length = s.riders.length :=
    stableSort_length byPositionDesc s.riders
  have hgap := stepLoop_getD_gap route dt s.time d
    (stableSort byPositionDesc s.riders) none i (by rw [hlen]; exact hi) hfin
  simp only [Race.step]
  linarith

/-- Witness for C4: two equal riders at the start line; after one step the
follower sits exactly `0.3 m` behind. -/
theorem claim_C4_witness :
    ((0 + 1 < ([twinA, twinB] : List Rider).length) ∧
      ((stableSort byPositionDesc [twinA, twinB]).getD (0 + 1) twinA).finished
        = false) ∧
    0.3 ≤ ((Race.step routeFlat 0.2
        { riders := [twinA, twinB], time := 0 }).riders.getD 0 twinA).position -
      ((Race.step routeFlat 0.2
        { riders := [twinA, twinB], time := 0 }).riders.getD (0 + 1)
          twinA).position :=
  ⟨⟨by norm_num,
    by norm_num [stableSort, insertSorted, byPositionDesc, twinA, twinB]⟩,
    claim_C4 routeFlat 0.2 { riders := [twinA, twinB], time := 0 } twinA 0
      (by norm_num)
      (by norm_num [stableSort, insertSorted, byPositionDesc, twinA, twinB])⟩

/-! ## Run-loop lemmas -/

lemma keyTimeLE_refl (k : Option ℚ) : keyTimeLE k k = true := by
  cases k <;> simp [keyTimeLE]

lemma pyOr_some_self (d : ℚ) : pyOr (some d) d = d := by
  simp [pyOr]

lemma finalOrderLE_eq_byPositionDesc (t : ℚ) (a b : Rider)
    (ha : a.finish_time = some t) (hb : b.finish_time = some t) :
    finalOrderLE a b = byPositionDesc a b := by
  unfold finalOrderLE byPositionDesc
  by_cases hp : a.position = b.position
  · rw [if_pos hp]
    have hk : finishSortKey a = finishSortKey b := by
      simp [finishSortKey, ha, hb]
    rw [hk, keyTimeLE_refl, hp]
    simp
  · rw [if_neg hp]
    simp only [decide_eq_decide]
    constructor
    · exact le_of_lt
    · intro hle
      exact lt_of_le_of_ne hle (fun e => hp e.symm)

lemma markDNF_mem (max_time : ℚ) (rs : List Rider)
    (h : rs.any (fun r => r.finished) = false) :
    ∀ r ∈ Race.markDNF max_time rs,
      r.finished = true ∧ r.finish_time = some max_time := by
  intro r hr
  unfold Race.markDNF at hr
  rw [if_neg (by simp [h])] at hr
  obtain ⟨x, _, rfl⟩ := List.mem_map.mp hr
  exact ⟨rfl, rfl⟩

/-! ## Claim theorems: run loop -/

/-- C5: if no rider is finished when the step cap `int(max_time/dt)` is
exhausted, `Race.run` marks every rider finished with
`finish_time = max_time`, every reported finish time is `max_time`, and the
returned order is the riders stable-sorted solely by final position
descending. -/
theorem claim_C5 (route : Route) (dt max_time : ℚ) (riders : List Rider)
    (hnone : ((Race.runLoop route dt (⌊max_time / dt⌋).toNat
        { riders := riders, time := 0 }).riders.any
          (fun r => r.finished)) = false) :
    (∀ r ∈ Race.runState route dt max_time riders,
        r.finished = true ∧ r.finish_time = some max_time) ∧
    (∀ x ∈ (Race.run route dt max_time riders).finish_times,
        x.2 = max_time) ∧
    (Race.run route dt max_time riders).order =
      (stableSort byPositionDesc
        (Race.markDNF max_time
          (Race.runLoop route dt (⌊max_time / dt⌋).toNat
            { riders := riders, time := 0 }).riders)).map Rider.name := by
  have hmem : ∀ r ∈ Race.markDNF max_time
      (Race.runLoop route dt (⌊max_time / dt⌋).toNat
        { riders := riders, time := 0 }).riders,
      r.finished = true ∧ r.finish_time = some max_time :=
    markDNF_mem max_time _ hnone
  have hstate : ∀ r ∈ Race.runState route dt max_time riders,
      r.finished = true ∧ r.finish_time = some max_time := by
    intro r hr
    simp only [Race.runState] at hr
    exact hmem r ((mem_stableSort finalOrderLE r _).mp hr)
  refine ⟨hstate, ?_, ?_⟩
  · intro x hx
    simp only [Race.run] at hx
    obtain ⟨r, hr, rfl⟩ := List.mem_map.mp hx
    rw [(hstate r hr).2, pyOr_some_self]
  · simp only [Race.run, Race.runState]
    rw [stableSort_congr finalOrderLE byPositionDesc _
      (fun a ha b hb =>
        finalOrderLE_eq_byPositionDesc max_time a b
          (hmem a ha).2 (hmem b hb).2)]

/-- Witness for C5: a cap of zero steps (`max_time = 0.1`, `dt = 0.2`), two
riders, nobody finishes. -/
theorem claim_C5_witness :
    (((Race.runLoop routeFlat 0.2 (⌊(0.1 : ℚ) / 0.2⌋).toNat
        { riders := [twinA, twinB], time := 0 }).riders.any
          (fun r => r.finished)) = false) ∧
    ((∀ r ∈ Race.runState routeFlat 0.2 0.1 [twinA, twinB],
        r.finished = true ∧ r.finish_time = some 0.1) ∧
     (∀ x ∈ (Race.run routeFlat 0.2 0.1 [twinA, twinB]).finish_times,
        x.2 = 0.1) ∧
     (Race.run routeFlat 0.2 0.1 [twinA, twinB]).order =
      (stableSort byPositionDesc
        (Race.markDNF 0.1
          (Race.runLoop routeFlat 0.2 (⌊(0.1 : ℚ) / 0.2⌋).toNat
            { riders := [twinA, twinB], time := 0 }).riders)).map
        Rider.name) :=
  ⟨by norm_num [Race.runLoop, twinA, twinB],
    claim_C5 routeFlat 0.2 0.1 [twinA, twinB]
      (by norm_num [Race.runLoop, twinA, twinB])⟩

/-! ## Claim theorems: determinism and the twin riders -/

/-- C8 fails as stated: two riders with identical traits, physiology, and
policy, starting at the same position in the same race, are already `0.3 m`
apart after one step — in this exact-arithmetic embedding the divergence is
exactly `3/10`, a structural effect of the follower power rule and the
overlap clamp, not floating-point noise. -/
theorem claim_C8_counterexample :
    (Race.step routeFlat 0.2 { riders := [twinA, twinB], time := 0 }).riders.map
        Rider.position = [42703867/125000000, 5203867/125000000] ∧
    ((42703867 : ℚ)/125000000 - 5203867/125000000 = 3/10) ∧
    ((3 : ℚ)/10 ≠ 0) := by
  refine ⟨?_, by norm_num, by norm_num⟩
  norm_num [Race.step, Race.stepLoop, Race.stepOne, stableSort, insertSorted,
    byPositionDesc, Rider.choose_power, Physiology.fatigue_adjusted_cp,
    Physiology.available_power, Physiology.update, compute_next_speed,
    compute_forces, compute_draft_factor, Route.gradient_at, gradientAtLoop,
    Route.total_length, DEFAULT_CONSTANTS, twinA, twinB, routeFlat, physFix,
    Physiology.make]

/-- C8 amended: identical inputs produce identical results (the step engine
is a pure function of the race state), but two identical riders in the
*same* race do not stay together: the rider sorted behind is processed as a
follower and ends the first step exactly `0.3 m` behind its twin. -/
theorem claim_C8_amended (t₁ t₂ : RaceState) (h : t₁ = t₂) :
    Race.step routeFlat 0.2 t₁ = Race.step routeFlat 0.2 t₂ ∧
    ((Race.step routeFlat 0.2
        { riders := [twinA, twinB], time := 0 }).riders.getD 0 twinA).position -
      ((Race.step routeFlat 0.2
        { riders := [twinA, twinB], time := 0 }).riders.getD 1 twinA).position
      = 3/10 := by
  refine ⟨by rw [h], ?_⟩
  norm_num [Race.step, Race.stepLoop, Race.stepOne, stableSort, insertSorted,
    byPositionDesc, Rider.choose_power, Physiology.fatigue_adjusted_cp,
    Physiology.available_power, Physiology.update, compute_next_speed,
    compute_forces, compute_draft_factor, Route.gradient_at, gradientAtLoop,
    Route.total_length, DEFAULT_CONSTANTS, twinA, twinB, routeFlat, physFix,
    Physiology.make]

/-- Witness for amended C8 at the twin-rider race state. -/
theorem claim_C8_witness :
    (({ riders := [twinA, twinB], time := 0 } : RaceState) =
      { riders := [twinA, twinB], time := 0 }) ∧
    (Race.step routeFlat 0.2 { riders := [twinA, twinB], time := 0 } =
        Race.step routeFlat 0.2 { riders := [twinA, twinB], time := 0 } ∧
      ((Race.step routeFlat 0.2
          { riders := [twinA, twinB], time := 0 }).riders.getD 0
            twinA).position -
        ((Race.step routeFlat 0.2
          { riders := [twinA, twinB], time := 0 }).riders.getD 1
            twinA).position = 3/10) :=
  ⟨rfl, claim_C8_amended _ _ rfl⟩

/-- C10: a rider whose finish is detected during the step executed at
simulated time `0.0` stores `finish_time = 0.0`, which `Race.run` then
treats as unset: `r.finish_time or max_time` yields `max_time` and the
final-sort key `r.finish_time or float("inf")` is `+inf` (`none`).  The
concrete conjunct exhibits a run in which the only rider finishes at time
`0.0`, keeps `finish_time = some 0`, is reported at `max_time = 0.2`, and
carries the infinite sort key. -/
theorem claim_C10 (r : Rider) (max_time : ℚ) (hr : r.finish_time = some 0) :
    pyOr r.finish_time max_time = max_time ∧
    finishSortKey r = none ∧
    (Race.runState routeShort 0.2 0.2 [twinA]).map
      (fun x => (x.finish_time, pyOr x.finish_time 0.2, finishSortKey x)) =
      [(some 0, 0.2, none)] ∧
    (Race.run routeShort 0.2 0.2 [twinA]).finish_times = [("A", 0.2)] := by
  refine ⟨by rw [hr]; simp [pyOr], by simp [finishSortKey, hr], ?_, ?_⟩ <;>
    norm_num [Race.run, Race.runState, Race.runLoop, Race.markDNF, Race.step,
      Race.stepLoop, Race.stepOne, stableSort, insertSorted, byPositionDesc,
      finalOrderLE, keyTimeLE, finishSortKey, pyOr, Rider.choose_power,
      Physiology.fatigue_adjusted_cp, Physiology.available_power,
      Physiology.update, compute_next_speed, compute_forces,
      compute_draft_factor, Route.gradient_at, gradientAtLoop,
      Route.total_length, DEFAULT_CONSTANTS, twinA, routeShort, physFix,
      Physiology.make]

/-- Witness for C10 at a rider literal whose stored finish time is `0.0`. -/
theorem claim_C10_witness :
    (({ twinA with finish_time := some 0 } : Rider).finish_time = some 0) ∧
    (pyOr ({ twinA with finish_time := some 0 } : Rider).finish_time 7 = 7 ∧
     finishSortKey ({ twinA with finish_time := some 0 } : Rider) = none ∧
     (Race.runState routeShort 0.2 0.2 [twinA]).map
       (fun x => (x.finish_time, pyOr x.finish_time 0.2, finishSortKey x)) =
       [(some 0, 0.2, none)] ∧
     (Race.run routeShort 0.2 0.2 [twinA]).finish_times = [("A", 0.2)]) :=
  ⟨rfl, claim_C10 { twinA with finish_time := some 0 } 7 rfl⟩

end CyclingSim
